import Mathlib

/-!
Verification of the random-word-api worker (src/index.ts).

The embedding translates the single TypeScript source file into Lean:
JavaScript Record objects become association lists, the two remote
fetches of the loader become Option-valued parameters (none = the fetch
or the JSON parse threw), and the two comparator-based random sorts of
the /word handler become function parameters on lists (the rearrangement
the sort produced).  Handlers are pure functions from a request and the
process state to a response and the next process state.
-/

namespace RandomWordApi

/-- Word list for one language: the source type WordData = string[]. -/
abbrev WordData := List String

/-- The source type LanguageMap = Record of string to WordData, as an
association list in key insertion order (the order Object.keys yields). -/
abbrev LanguageMap := List (String × WordData)

/-- The source type RateLimitData = Record of string to number: client id
to the last admitted timestamp in epoch milliseconds. -/
abbrev RateLimitData := List (String × Nat)

/-- Lookup of a key in a JavaScript-style record: the first entry with
this key, if any. -/
def lookupKey {α : Type} (k : String) : List (String × α) → Option α
  | [] => none
  | e :: m => if e.1 = k then some e.2 else lookupKey k m

/-- JavaScript record assignment obj[k] = v: overwrite the value at an
existing key in place, otherwise append the new key at the end. -/
def setEntry {α : Type} (m : List (String × α)) (k : String) (v : α) :
    List (String × α) :=
  if (lookupKey k m).isSome then
    m.map (fun e => if e.1 = k then (e.1, v) else e)
  else
    m ++ [(k, v)]

/-- Object.keys: the keys of a record in insertion order. -/
def keysOf {α : Type} (m : List (String × α)) : List String := m.map Prod.fst

/-- The constant RATE_LIMIT_WINDOW = 5000 milliseconds. -/
def RATE_LIMIT_WINDOW : Nat := 5000

/-- JavaScript truthiness of the lookup rateLimits[ip]: undefined and the
number 0 are falsy, every other number is truthy. -/
def jsTruthyNum : Option Nat → Bool
  | none => false
  | some n => n != 0

/-- The cleanup pass inside checkRateLimit: delete every entry whose
timestamp is more than RATE_LIMIT_WINDOW milliseconds before now. -/
def cleanupRateLimits (now : Nat) (t : RateLimitData) : RateLimitData :=
  t.filter (fun e => decide (now - e.2 ≤ RATE_LIMIT_WINDOW))

/-- checkRateLimit from the source.  Given the current time, the client
id and the table, return the admit decision together with the table
after the call.  The condition mirrors
  if (!lastRequest || now - lastRequest > RATE_LIMIT_WINDOW)
including the truthiness of the lookup; on admit the client timestamp is
recorded first and the cleanup pass runs over the updated table. -/
def checkRateLimit (now : Nat) (ip : String) (t : RateLimitData) :
    Bool × RateLimitData :=
  let lastRequest := lookupKey ip t
  if jsTruthyNum lastRequest = false ∨
      RATE_LIMIT_WINDOW < now - lastRequest.getD 0 then
    (true, cleanupRateLimits now (setEntry t ip now))
  else
    (false, t)

/-- The built-in fallback word list for the language en. -/
def fallbackWords : WordData := ["hello", "world", "test", "example", "demo"]

/-- The fixed list of secondary language codes the loader fetches. -/
def secondaryLanguages : List String := ["de", "es", "fr", "it", "pt-br", "ro", "zh"]

/-- The process-wide mutable state of the worker: the rate limit table,
the language data cache, the available languages list and the
data-loaded flag. -/
structure AppState where
  rateLimits : RateLimitData
  languageData : LanguageMap
  availableLanguages : List String
  dataLoaded : Bool
deriving DecidableEq

/-- The state at process start. -/
def initialState : AppState :=
  { rateLimits := []
    languageData := [("en", fallbackWords)]
    availableLanguages := ["en"]
    dataLoaded := false }

/-- The loop over the secondary languages in loadWordData: each language
is fetched independently; on success its entry is written, on failure
(the inner catch) the language is skipped and the loop continues. -/
def loadSecondary (fs : String → Option WordData) :
    List String → LanguageMap → LanguageMap
  | [], m => m
  | l :: ls, m =>
    match fs l with
    | some ws => loadSecondary fs ls (setEntry m l ws)
    | none => loadSecondary fs ls m

/-- loadWordData from the source.  fe is the outcome of the primary en
fetch, fs the outcome of each secondary fetch.  When the primary fetch
throws, the outer catch is reached before anything was written and
before the secondary loop ran, so the whole state is returned unchanged.
On primary success the en entry is overwritten, the secondary loop runs,
and availableLanguages is recomputed as Object.keys of the store. -/
def loadWordData (fe : Option WordData) (fs : String → Option WordData)
    (s : AppState) : AppState :=
  match fe with
  | none => s
  | some ews =>
    let m1 := setEntry s.languageData "en" ews
    let m2 := loadSecondary fs secondaryLanguages m1
    { s with languageData := m2, availableLanguages := keysOf m2 }

/-- The lazy-load guard at the top of each data-serving handler:
  if (!dataLoaded) { await loadWordData(); dataLoaded = true; }
The flag is set by the handler whatever the load outcome was. -/
def ensureLoaded (fe : Option WordData) (fs : String → Option WordData)
    (s : AppState) : AppState :=
  if s.dataLoaded then s else { loadWordData fe fs s with dataLoaded := true }

/-- The body of a JSON response: a JSON array of strings or an error
object with a message. -/
inductive RespBody where
  | arr : List String → RespBody
  | err : String → RespBody
deriving DecidableEq

/-- An HTTP response: status code and JSON body. -/
structure Resp where
  status : Nat
  body : RespBody
deriving DecidableEq

/-- The rate limit error message of errorResponse in the handlers. -/
def errRateLimitMsg : String := "You hit the rate limit, try again in a few seconds"

/-- The unknown language error message. -/
def errNoTranslation : String := "No translation for this language"

/-- The empty length filter error message. -/
def errNoWordsLength : String := "No words found with the specified length"

/-- The lang query parameter after the default:
  url.searchParams.get("lang") or "en" when absent or falsy.
An absent parameter and the empty string both become en. -/
def effLang : Option String → String
  | none => "en"
  | some l => if l = "" then "en" else l

/-- The effective count of the /word handler:
  Math.max(1, Math.min(100, number)). -/
def effectiveCount (n : Int) : Int := max 1 (min 100 n)

/-- The parsed query parameters of a /word request.  number, length and
diff are the parseInt results with their defaults 1, -1 and -1; lang is
the raw parameter before the default. -/
structure WordQuery where
  number : Int
  length : Int
  lang : Option String
  diff : Int

/-- The difficulty guard of the /word handler:
  diff at least 1 and at most 5 and number at most 5. -/
def diffApplies (diff number : Int) : Bool :=
  decide (1 ≤ diff) && decide (diff ≤ 5) && decide (number ≤ 5)

/-- The GET /languages handler: run the lazy load if needed and answer
with the availableLanguages list. -/
def handleLanguages (fe : Option WordData) (fs : String → Option WordData)
    (s0 : AppState) : Resp × AppState :=
  let s1 := ensureLoaded fe fs s0
  (⟨200, RespBody.arr s1.availableLanguages⟩, s1)

/-- The GET /all handler: lazy load, rate limit check, then either the
unknown language error or the full stored word list of the language. -/
def handleAll (fe : Option WordData) (fs : String → Option WordData)
    (now : Nat) (ip : String) (p : Option String) (s0 : AppState) :
    Resp × AppState :=
  let s1 := ensureLoaded fe fs s0
  let rc := checkRateLimit now ip s1.rateLimits
  let s2 := { s1 with rateLimits := rc.2 }
  if rc.1 = false then
    (⟨403, RespBody.err errRateLimitMsg⟩, s2)
  else
    let lang := effLang p
    match lookupKey lang s2.languageData with
    | none => (⟨403, RespBody.err errNoTranslation⟩, s2)
    | some ws => (⟨200, RespBody.arr ws⟩, s2)

/-- The GET /word handler.  sh1 and sh2 stand for the rearrangements the
two comparator-based random sorts produce.  The source aliasing is kept:
when no length filter applies, words is still the stored array itself
and the first sort reorders the store entry in place, so the state keeps
the sorted list for that language; the filter and the slices build fresh
arrays, so every other path leaves the store untouched. -/
def handleWord (fe : Option WordData) (fs : String → Option WordData)
    (sh1 sh2 : List String → List String)
    (now : Nat) (ip : String) (q : WordQuery) (s0 : AppState) :
    Resp × AppState :=
  let s1 := ensureLoaded fe fs s0
  let rc := checkRateLimit now ip s1.rateLimits
  let s2 := { s1 with rateLimits := rc.2 }
  if rc.1 = false then
    (⟨403, RespBody.err errRateLimitMsg⟩, s2)
  else
    let number := effectiveCount q.number
    let lang := effLang q.lang
    match lookupKey lang s2.languageData with
    | none => (⟨403, RespBody.err errNoTranslation⟩, s2)
    | some stored =>
      if 0 < q.length then
        let fws := stored.filter (fun w => decide ((w.length : Int) = q.length))
        if fws.isEmpty then
          (⟨403, RespBody.err errNoWordsLength⟩, s2)
        else
          let sws := sh1 fws
          let rws :=
            if diffApplies q.diff number then sh2 (sws.take (number * 10).toNat)
            else sws
          (⟨200, RespBody.arr (rws.take number.toNat)⟩, s2)
      else
        let sws := sh1 stored
        let s3 := { s2 with languageData := setEntry s2.languageData lang sws }
        let rws :=
          if diffApplies q.diff number then sh2 (sws.take (number * 10).toNat)
          else sws
        (⟨200, RespBody.arr (rws.take number.toNat)⟩, s3)

/-- A state that has the fallback data and the loaded flag already set:
the state after a first request whose primary fetch failed. -/
def loadedFallbackState : AppState := { initialState with dataLoaded := true }

/-- The invariant of claim C9: the store has an en entry and the
available languages list contains en. -/
def EnPresent (s : AppState) : Prop :=
  (lookupKey "en" s.languageData).isSome = true ∧ "en" ∈ s.availableLanguages

/-- The states the process can reach: the initial state, closed under a
request to any of the three data-serving handlers, with arbitrary fetch
outcomes, random sort outcomes, request time, client and parameters. -/
inductive Reachable : AppState → Prop where
  | init : Reachable initialState
  | stepLanguages {s : AppState} (fe : Option WordData) (fs : String → Option WordData) :
      Reachable s → Reachable (handleLanguages fe fs s).2
  | stepAll {s : AppState} (fe : Option WordData) (fs : String → Option WordData)
      (now : Nat) (ip : String) (p : Option String) :
      Reachable s → Reachable (handleAll fe fs now ip p s).2
  | stepWord {s : AppState} (fe : Option WordData) (fs : String → Option WordData)
      (sh1 sh2 : List String → List String) (now : Nat) (ip : String) (q : WordQuery) :
      Reachable s → Reachable (handleWord fe fs sh1 sh2 now ip q s).2

/-! ### Association list lemmas -/

theorem lookupKey_map_update {α : Type} (m : List (String × α)) (k : String) (v : α) :
    lookupKey k (m.map (fun e => if e.1 = k then (e.1, v) else e)) =
      (lookupKey k m).map (fun _ => v) := by
  induction m with
  | nil => rfl
  | cons e m ih =>
    by_cases h : e.1 = k
    · simp [lookupKey, h]
    · simp [lookupKey, h, ih]

theorem lookupKey_map_update_ne {α : Type} (m : List (String × α)) (k k' : String)
    (v : α) (hne : k' ≠ k) :
    lookupKey k' (m.map (fun e => if e.1 = k then (e.1, v) else e)) =
      lookupKey k' m := by
  have hkk : ¬(k = k') := fun hc => hne (Eq.symm hc)
  induction m with
  | nil => rfl
  | cons e m ih =>
    by_cases h : e.1 = k
    · simp [lookupKey, h, hkk, ih]
    · by_cases h2 : e.1 = k'
      · simp [lookupKey, h, h2, hne]
      · simp [lookupKey, h, h2, ih]

theorem lookupKey_append_single {α : Type} (m : List (String × α)) (k : String) (v : α)
    (h : lookupKey k m = none) :
    lookupKey k (m ++ [(k, v)]) = some v := by
  induction m with
  | nil => simp [lookupKey]
  | cons e m ih =>
    by_cases he : e.1 = k
    · simp [lookupKey, he] at h
    · simp only [lookupKey, he, if_false] at h
      simp only [List.cons_append, lookupKey, he, if_false]
      exact ih h

theorem lookupKey_append_single_ne {α : Type} (m : List (String × α)) (k k' : String)
    (v : α) (hne : k' ≠ k) :
    lookupKey k' (m ++ [(k, v)]) = lookupKey k' m := by
  have hkk : ¬(k = k') := fun hc => hne (Eq.symm hc)
  induction m with
  | nil => simp [lookupKey, hkk]
  | cons e m ih =>
    by_cases he : e.1 = k'
    · simp [lookupKey, he]
    · simp only [List.cons_append, lookupKey, he, if_false]
      exact ih

theorem lookupKey_setEntry_self {α : Type} (m : List (String × α)) (k : String) (v : α) :
    lookupKey k (setEntry m k v) = some v := by
  unfold setEntry
  by_cases h : (lookupKey k m).isSome
  · rw [if_pos h, lookupKey_map_update]
    rcases ho : lookupKey k m with _ | w
    · rw [ho] at h; simp at h
    · simp
  · rw [if_neg h]
    rcases ho : lookupKey k m with _ | w
    · exact lookupKey_append_single m k v ho
    · rw [ho] at h; simp at h

theorem lookupKey_setEntry_ne {α : Type} (m : List (String × α)) (k k' : String)
    (v : α) (hne : k' ≠ k) :
    lookupKey k' (setEntry m k v) = lookupKey k' m := by
  unfold setEntry
  by_cases h : (lookupKey k m).isSome
  · rw [if_pos h, lookupKey_map_update_ne m k k' v hne]
  · rw [if_neg h, lookupKey_append_single_ne m k k' v hne]

theorem isSome_lookupKey_setEntry {α : Type} (m : List (String × α)) (k k' : String)
    (v : α) (h : (lookupKey k' m).isSome = true) :
    (lookupKey k' (setEntry m k v)).isSome = true := by
  by_cases hk : k' = k
  · subst hk; rw [lookupKey_setEntry_self]; rfl
  · rw [lookupKey_setEntry_ne m k k' v hk]; exact h

theorem mem_keysOf_of_lookupKey {α : Type} (m : List (String × α)) (k : String)
    (h : (lookupKey k m).isSome = true) : k ∈ keysOf m := by
  induction m with
  | nil => simp [lookupKey] at h
  | cons e m ih =>
    by_cases he : e.1 = k
    · simp [keysOf, he]
    · simp only [lookupKey, he, if_false] at h
      simp only [keysOf, List.map_cons, List.mem_cons]
      exact Or.inr (ih h)

/-! ### Filter lemmas for the rate limit cleanup -/

theorem lookupKey_filter_some {α : Type} (p : String × α → Bool)
    (t : List (String × α)) (k : String) (v : α)
    (h : lookupKey k (t.filter p) = some v) : p (k, v) = true := by
  induction t with
  | nil => simp [lookupKey] at h
  | cons e t ih =>
    by_cases hp : p e = true
    · rw [List.filter_cons_of_pos hp] at h
      simp only [lookupKey] at h
      by_cases ha : e.1 = k
      · rw [if_pos ha] at h
        injection h with hb
        rw [← ha, ← hb]
        exact hp
      · rw [if_neg ha] at h
        exact ih h
    · rw [List.filter_cons_of_neg hp] at h
      exact ih h

theorem lookupKey_filter_of_pos {α : Type} (p : String × α → Bool)
    (t : List (String × α)) (k : String) (v : α)
    (h : lookupKey k t = some v) (hp : p (k, v) = true) :
    lookupKey k (t.filter p) = some v := by
  induction t with
  | nil => simp [lookupKey] at h
  | cons e t ih =>
    simp only [lookupKey] at h
    by_cases ha : e.1 = k
    · rw [if_pos ha] at h
      injection h with hb
      have hpe : p e = true := by
        have hkv : (k, v) = e := by rw [← ha, ← hb]
        rw [← hkv]
        exact hp
      rw [List.filter_cons_of_pos hpe]
      simp only [lookupKey, if_pos ha]
      rw [hb]
    · rw [if_neg ha] at h
      by_cases hpe : p e = true
      · rw [List.filter_cons_of_pos hpe]
        simp only [lookupKey, if_neg ha]
        exact ih h
      · rw [List.filter_cons_of_neg hpe]
        exact ih h

/-! ### Loader lemmas -/

theorem lookupKey_loadSecondary_not_mem (fs : String → Option WordData) (l : String) :
    ∀ (ls : List String) (m : LanguageMap), l ∉ ls →
      lookupKey l (loadSecondary fs ls m) = lookupKey l m := by
  intro ls
  induction ls with
  | nil => intro m _; rfl
  | cons a ls ih =>
    intro m hl
    have hla : l ≠ a := fun hc => hl (hc ▸ List.mem_cons_self a ls)
    have hl2 : l ∉ ls := fun hc => hl (List.mem_cons_of_mem a hc)
    cases hfa : fs a with
    | none =>
      simp only [loadSecondary, hfa]
      exact ih m hl2
    | some ws =>
      simp only [loadSecondary, hfa]
      rw [ih (setEntry m a ws) hl2, lookupKey_setEntry_ne m a l ws hla]

theorem lookupKey_loadSecondary_of_none (fs : String → Option WordData) (l : String)
    (hfl : fs l = none) :
    ∀ (ls : List String) (m : LanguageMap),
      lookupKey l (loadSecondary fs ls m) = lookupKey l m := by
  intro ls
  induction ls with
  | nil => intro m; rfl
  | cons a ls ih =>
    intro m
    by_cases ha : a = l
    · subst ha
      simp only [loadSecondary, hfl]
      exact ih m
    · cases hfa : fs a with
      | none =>
        simp only [loadSecondary, hfa]
        exact ih m
      | some ws =>
        simp only [loadSecondary, hfa]
        rw [ih (setEntry m a ws),
          lookupKey_setEntry_ne m a l ws (fun hc => ha (Eq.symm hc))]

theorem lookupKey_loadSecondary_of_some (fs : String → Option WordData) (l : String)
    (ws : WordData) (hfl : fs l = some ws) :
    ∀ (ls : List String) (m : LanguageMap), l ∈ ls →
      lookupKey l (loadSecondary fs ls m) = some ws := by
  intro ls
  induction ls with
  | nil => intro m h; simp at h
  | cons a ls ih =>
    intro m hmem
    by_cases ha : a = l
    · subst ha
      simp only [loadSecondary, hfl]
      by_cases hin : a ∈ ls
      · exact ih _ hin
      · rw [lookupKey_loadSecondary_not_mem fs a ls _ hin]
        exact lookupKey_setEntry_self m a ws
    · have hin : l ∈ ls := by
        rcases List.mem_cons.mp hmem with h | h
        · exact absurd (Eq.symm h) ha
        · exact h
      cases hfa : fs a with
      | none =>
        simp only [loadSecondary, hfa]
        exact ih _ hin
      | some wsa =>
        simp only [loadSecondary, hfa]
        exact ih _ hin

theorem isSome_lookupKey_loadSecondary (fs : String → Option WordData) (k : String) :
    ∀ (ls : List String) (m : LanguageMap), (lookupKey k m).isSome = true →
      (lookupKey k (loadSecondary fs ls m)).isSome = true := by
  intro ls
  induction ls with
  | nil => intro m h; exact h
  | cons a ls ih =>
    intro m h
    cases hfa : fs a with
    | none =>
      simp only [loadSecondary, hfa]
      exact ih m h
    | some ws =>
      simp only [loadSecondary, hfa]
      exact ih _ (isSome_lookupKey_setEntry m a k ws h)

theorem isSome_lookupKey_en_loadWordData (fe : Option WordData)
    (fs : String → Option WordData) (s : AppState)
    (h : (lookupKey "en" s.languageData).isSome = true) :
    (lookupKey "en" (loadWordData fe fs s).languageData).isSome = true := by
  cases fe with
  | none => exact h
  | some ews =>
    simp only [loadWordData]
    apply isSome_lookupKey_loadSecondary
    rw [lookupKey_setEntry_self]
    rfl

theorem enPresent_loadWordData (fe : Option WordData) (fs : String → Option WordData)
    (s : AppState) (h : EnPresent s) : EnPresent (loadWordData fe fs s) := by
  cases fe with
  | none => exact h
  | some ews =>
    have hen : (lookupKey "en" (loadWordData (some ews) fs s).languageData).isSome = true :=
      isSome_lookupKey_en_loadWordData (some ews) fs s h.1
    refine ⟨hen, ?_⟩
    simp only [loadWordData] at hen ⊢
    exact mem_keysOf_of_lookupKey _ "en" hen

theorem ensureLoaded_dataLoaded (fe : Option WordData) (fs : String → Option WordData)
    (s : AppState) : (ensureLoaded fe fs s).dataLoaded = true := by
  unfold ensureLoaded
  split_ifs with h
  · exact h
  · rfl

theorem ensureLoaded_of_loaded (fe : Option WordData) (fs : String → Option WordData)
    (s : AppState) (h : s.dataLoaded = true) : ensureLoaded fe fs s = s := by
  unfold ensureLoaded
  rw [if_pos h]

theorem enPresent_ensureLoaded (fe : Option WordData) (fs : String → Option WordData)
    (s : AppState) (h : EnPresent s) : EnPresent (ensureLoaded fe fs s) := by
  unfold ensureLoaded
  split_ifs
  · exact h
  · have h2 := enPresent_loadWordData fe fs s h
    exact ⟨h2.1, h2.2⟩

/-! ### Rate limiter characterization -/

theorem checkRateLimit_admit_eq (now : Nat) (ip : String) (t : RateLimitData)
    (h : jsTruthyNum (lookupKey ip t) = false ∨
      RATE_LIMIT_WINDOW < now - (lookupKey ip t).getD 0) :
    checkRateLimit now ip t = (true, cleanupRateLimits now (setEntry t ip now)) := by
  simp only [checkRateLimit]
  rw [if_pos h]

theorem checkRateLimit_reject_eq (now : Nat) (ip : String) (t : RateLimitData)
    (h : ¬(jsTruthyNum (lookupKey ip t) = false ∨
      RATE_LIMIT_WINDOW < now - (lookupKey ip t).getD 0)) :
    checkRateLimit now ip t = (false, t) := by
  simp only [checkRateLimit]
  rw [if_neg h]

theorem checkRateLimit_fst_iff (now : Nat) (ip : String) (t : RateLimitData)
    (hpos : ∀ v, lookupKey ip t = some v → 0 < v) :
    (checkRateLimit now ip t).1 = true ↔
      lookupKey ip t = none ∨
        ∃ last, lookupKey ip t = some last ∧ RATE_LIMIT_WINDOW < now - last := by
  by_cases hc : jsTruthyNum (lookupKey ip t) = false ∨
      RATE_LIMIT_WINDOW < now - (lookupKey ip t).getD 0
  · rw [checkRateLimit_admit_eq now ip t hc]
    simp only [true_iff]
    rcases hc with h1 | h2
    · cases ho : lookupKey ip t with
      | none => exact Or.inl rfl
      | some n =>
        rw [ho] at h1
        simp [jsTruthyNum] at h1
        have := hpos n ho
        omega
    · cases ho : lookupKey ip t with
      | none => exact Or.inl rfl
      | some n =>
        rw [ho] at h2
        exact Or.inr ⟨n, rfl, by simpa using h2⟩
  · rw [checkRateLimit_reject_eq now ip t hc]
    push_neg at hc
    constructor
    · intro h; simp at h
    · intro hrhs
      exfalso
      rcases hrhs with hnone | ⟨last, hl, hgt⟩
      · rw [hnone] at hc
        exact hc.1 rfl
      · rw [hl] at hc
        exact absurd hgt (by simpa using hc.2)

theorem checkRateLimit_admit_effects (now : Nat) (ip : String) (t : RateLimitData)
    (h : (checkRateLimit now ip t).1 = true) :
    lookupKey ip (checkRateLimit now ip t).2 = some now ∧
    (∀ k v, lookupKey k (checkRateLimit now ip t).2 = some v →
      now - v ≤ RATE_LIMIT_WINDOW) ∧
    (∀ k v, k ≠ ip → lookupKey k t = some v → now - v ≤ RATE_LIMIT_WINDOW →
      lookupKey k (checkRateLimit now ip t).2 = some v) := by
  by_cases hc : jsTruthyNum (lookupKey ip t) = false ∨
      RATE_LIMIT_WINDOW < now - (lookupKey ip t).getD 0
  · rw [checkRateLimit_admit_eq now ip t hc]
    refine ⟨?_, ?_, ?_⟩
    · simp only [cleanupRateLimits]
      apply lookupKey_filter_of_pos
      · exact lookupKey_setEntry_self t ip now
      · simp
    · intro k v hv
      simp only [cleanupRateLimits] at hv
      have := lookupKey_filter_some _ _ k v hv
      simpa using this
    · intro k v hk hv hle
      simp only [cleanupRateLimits]
      apply lookupKey_filter_of_pos
      · rw [lookupKey_setEntry_ne t ip k now hk]
        exact hv
      · simpa using hle
  · rw [checkRateLimit_reject_eq now ip t hc] at h
    simp at h

theorem checkRateLimit_reject_effects (now : Nat) (ip : String) (t : RateLimitData)
    (h : (checkRateLimit now ip t).1 = false) :
    (checkRateLimit now ip t).2 = t := by
  by_cases hc : jsTruthyNum (lookupKey ip t) = false ∨
      RATE_LIMIT_WINDOW < now - (lookupKey ip t).getD 0
  · rw [checkRateLimit_admit_eq now ip t hc] at h
    simp at h
  · rw [checkRateLimit_reject_eq now ip t hc]

theorem checkRateLimit_reject_of_recent (now last : Nat) (ip : String)
    (t : RateLimitData) (hl : lookupKey ip t = some last) (hpos : 0 < last)
    (hwin : now - last ≤ RATE_LIMIT_WINDOW) :
    (checkRateLimit now ip t).1 = false := by
  have hiff := checkRateLimit_fst_iff now ip t
    (fun v hv => by rw [hl] at hv; injection hv with h2; omega)
  rcases hb : (checkRateLimit now ip t).1 with _ | _
  · rfl
  · exfalso
    rcases hiff.mp hb with hnone | ⟨l2, hl2, hgt⟩
    · rw [hl] at hnone; cases hnone
    · rw [hl] at hl2
      injection hl2 with h2
      omega

example : (checkRateLimit 1000 "a" []).1 = true := by decide

example : (checkRateLimit 6000 "a" (checkRateLimit 1000 "a" []).2).1 = false := by decide

example : (checkRateLimit 6001 "a" (checkRateLimit 1000 "a" []).2).1 = true := by decide

example :
    (handleWord none (fun _ => none) id id 1000 "a"
      ⟨3, 5, some "en", -1⟩ loadedFallbackState).1 =
    ⟨200, RespBody.arr ["hello", "world"]⟩ := by decide

example :
    (handleWord none (fun _ => none) List.reverse List.reverse 1000 "a"
      ⟨1, -1, some "en", -1⟩ loadedFallbackState).2.languageData =
    [("en", ["demo", "example", "test", "world", "hello"])] := by decide

example :
    (handleAll none (fun _ => none) 1000 "a" (some "") loadedFallbackState).1 =
    ⟨200, RespBody.arr fallbackWords⟩ := by decide

example :
    lookupKey "de" (loadWordData none (fun _ => some ["wort"]) initialState).languageData
      = none := by decide

/-- Claim C4: checkRateLimit admits exactly when the client has no
recorded timestamp or more than 5000 milliseconds have elapsed since the
recorded timestamp; on admit it records now for this client, afterwards
no surviving entry is older than the window while every other
still-fresh entry is kept; on reject the table is unchanged.  Stated
under the hypothesis that a recorded timestamp for the client is a
positive epoch time, as every timestamp the program ever records is. -/
theorem checkRateLimit_spec (now : Nat) (ip : String) (t : RateLimitData)
    (hpos : ∀ v, lookupKey ip t = some v → 0 < v) :
    ((checkRateLimit now ip t).1 = true ↔
      lookupKey ip t = none ∨
        ∃ last, lookupKey ip t = some last ∧ RATE_LIMIT_WINDOW < now - last) ∧
    ((checkRateLimit now ip t).1 = true →
      lookupKey ip (checkRateLimit now ip t).2 = some now ∧
      (∀ k v, lookupKey k (checkRateLimit now ip t).2 = some v →
        now - v ≤ RATE_LIMIT_WINDOW) ∧
      (∀ k v, k ≠ ip → lookupKey k t = some v → now - v ≤ RATE_LIMIT_WINDOW →
        lookupKey k (checkRateLimit now ip t).2 = some v)) ∧
    ((checkRateLimit now ip t).1 = false → (checkRateLimit now ip t).2 = t) := by
  refine ⟨checkRateLimit_fst_iff now ip t hpos, ?_, ?_⟩
  · intro h
    exact checkRateLimit_admit_effects now ip t h
  · intro h
    exact checkRateLimit_reject_effects now ip t h

/-- Witness for claim C4 at a concrete input: client a recorded at 500,
checked at 6000, is admitted and re-recorded at 6000. -/
theorem checkRateLimit_spec_witness :
    (∀ v, lookupKey "a" ([("a", 500)] : RateLimitData) = some v → 0 < v) ∧
    (checkRateLimit 6000 "a" [("a", 500)]).1 = true := by
  have hpos : ∀ v, lookupKey "a" ([("a", 500)] : RateLimitData) = some v → 0 < v := by
    intro v hv
    simp [lookupKey] at hv
    omega
  refine ⟨hpos, ?_⟩
  exact (checkRateLimit_spec 6000 "a" [("a", 500)] hpos).1.mpr
    (Or.inr ⟨500, by simp [lookupKey], by decide⟩)

/-- Counterexample to claim C5 as stated: client a was admitted at time
1000 and recorded; a second check exactly 5000 milliseconds later, at
time 6000, is rejected by the code, while the claim says a check at
exactly 5000 elapsed milliseconds is admitted. -/
theorem rateLimit_exact_window_cex :
    (checkRateLimit 1000 "a" []).1 = true ∧
    lookupKey "a" (checkRateLimit 1000 "a" []).2 = some 1000 ∧
    (checkRateLimit 6000 "a" (checkRateLimit 1000 "a" []).2).1 = false := by decide

/-- Claim C5 (amended): for a client whose recorded timestamp is the
positive time last, a check at time now is admitted exactly when
strictly more than 5000 milliseconds have elapsed; in particular a check
at exactly 5000 elapsed milliseconds is rejected, and any check within
the window is rejected. -/
theorem checkRateLimit_window_boundary (now last : Nat) (ip : String)
    (t : RateLimitData) (hl : lookupKey ip t = some last) (hpos : 0 < last) :
    ((checkRateLimit now ip t).1 = true ↔ RATE_LIMIT_WINDOW < now - last) ∧
    (now - last = RATE_LIMIT_WINDOW → (checkRateLimit now ip t).1 = false) := by
  have hiff := checkRateLimit_fst_iff now ip t
    (fun v hv => by rw [hl] at hv; injection hv with h2; omega)
  constructor
  · rw [hiff]
    constructor
    · intro h
      rcases h with hnone | ⟨l2, hl2, hgt⟩
      · rw [hl] at hnone; cases hnone
      · rw [hl] at hl2; injection hl2 with h2; omega
    · intro h
      exact Or.inr ⟨last, hl, h⟩
  · intro heq
    rcases hb : (checkRateLimit now ip t).1 with _ | _
    · rfl
    · exfalso
      rcases hiff.mp hb with hnone | ⟨l2, hl2, hgt⟩
      · rw [hl] at hnone; cases hnone
      · rw [hl] at hl2; injection hl2 with h2; omega

/-- Witness for the amended claim C5: recorded at 1000, a check at 6000
(exactly the window) is rejected. -/
theorem checkRateLimit_window_boundary_witness :
    (checkRateLimit 6000 "a" [("a", 1000)]).1 = false := by
  have h := checkRateLimit_window_boundary 6000 1000 "a" [("a", 1000)]
    (by simp [lookupKey]) (by decide)
  exact h.2 (by decide)

/-! ### Handler state helpers -/

theorem handleLanguages_eq (fe : Option WordData) (fs : String → Option WordData)
    (s : AppState) :
    handleLanguages fe fs s =
      (⟨200, RespBody.arr (ensureLoaded fe fs s).availableLanguages⟩,
        ensureLoaded fe fs s) := rfl

theorem handleAll_snd_fields (fe : Option WordData) (fs : String → Option WordData)
    (now : Nat) (ip : String) (p : Option String) (s : AppState) :
    (handleAll fe fs now ip p s).2.languageData = (ensureLoaded fe fs s).languageData ∧
    (handleAll fe fs now ip p s).2.availableLanguages =
      (ensureLoaded fe fs s).availableLanguages ∧
    (handleAll fe fs now ip p s).2.dataLoaded = true ∧
    (handleAll fe fs now ip p s).2.rateLimits =
      (checkRateLimit now ip (ensureLoaded fe fs s).rateLimits).2 := by
  simp only [handleAll]
  split
  · exact ⟨rfl, rfl, ensureLoaded_dataLoaded fe fs s, rfl⟩
  · split
    · exact ⟨rfl, rfl, ensureLoaded_dataLoaded fe fs s, rfl⟩
    · exact ⟨rfl, rfl, ensureLoaded_dataLoaded fe fs s, rfl⟩

theorem handleWord_snd_fields (fe : Option WordData) (fs : String → Option WordData)
    (sh1 sh2 : List String → List String) (now : Nat) (ip : String) (q : WordQuery)
    (s : AppState) :
    (handleWord fe fs sh1 sh2 now ip q s).2.availableLanguages =
      (ensureLoaded fe fs s).availableLanguages ∧
    (handleWord fe fs sh1 sh2 now ip q s).2.dataLoaded = true ∧
    (handleWord fe fs sh1 sh2 now ip q s).2.rateLimits =
      (checkRateLimit now ip (ensureLoaded fe fs s).rateLimits).2 ∧
    ((handleWord fe fs sh1 sh2 now ip q s).2.languageData =
        (ensureLoaded fe fs s).languageData ∨
      ∃ lang ws, (handleWord fe fs sh1 sh2 now ip q s).2.languageData =
        setEntry (ensureLoaded fe fs s).languageData lang ws) := by
  simp only [handleWord]
  split
  · exact ⟨rfl, ensureLoaded_dataLoaded fe fs s, rfl, Or.inl rfl⟩
  · split
    · exact ⟨rfl, ensureLoaded_dataLoaded fe fs s, rfl, Or.inl rfl⟩
    · split
      · split
        · exact ⟨rfl, ensureLoaded_dataLoaded fe fs s, rfl, Or.inl rfl⟩
        · exact ⟨rfl, ensureLoaded_dataLoaded fe fs s, rfl, Or.inl rfl⟩
      · exact ⟨rfl, ensureLoaded_dataLoaded fe fs s, rfl, Or.inr ⟨_, _, rfl⟩⟩

/-! ### Claims C2 and C3 on the loader -/

/-- Counterexample to claim C2 as stated: with the primary en fetch in
the failing subset and every secondary fetch succeeding, the secondary
language de is not written to the store even though de is outside the
failing subset and its fetch would succeed. -/
theorem loader_primary_blocks_secondary_cex :
    (fun _ : String => some (["wort"] : WordData)) "de" = some ["wort"] ∧
    lookupKey "de"
      (loadWordData none (fun _ => some ["wort"]) initialState).languageData = none := by
  exact ⟨rfl, by decide⟩

/-- Claim C2 (amended): during one loader run, provided the primary en
fetch succeeds, a fetch or parse failure of any subset of the secondary
languages leaves those store entries untouched and every other secondary
language is still fetched and written, and en itself is written; when
the primary fetch fails, the outer catch skips the secondary loop and
the whole state is left untouched, so no language is written at all. -/
theorem loadWordData_per_language (ews : WordData) (fs : String → Option WordData)
    (s : AppState) :
    lookupKey "en" (loadWordData (some ews) fs s).languageData = some ews ∧
    (∀ l ∈ secondaryLanguages, fs l = none →
      lookupKey l (loadWordData (some ews) fs s).languageData =
        lookupKey l s.languageData) ∧
    (∀ l ∈ secondaryLanguages, ∀ ws, fs l = some ws →
      lookupKey l (loadWordData (some ews) fs s).languageData = some ws) ∧
    (∀ fs2 : String → Option WordData, loadWordData none fs2 s = s) := by
  have hen : "en" ∉ secondaryLanguages := by decide
  refine ⟨?_, ?_, ?_, fun _ => rfl⟩
  · simp only [loadWordData]
    rw [lookupKey_loadSecondary_not_mem fs "en" secondaryLanguages _ hen]
    exact lookupKey_setEntry_self s.languageData "en" ews
  · intro l hl hfl
    have hne : l ≠ "en" := fun hc => hen (hc ▸ hl)
    simp only [loadWordData]
    rw [lookupKey_loadSecondary_of_none fs l hfl secondaryLanguages _,
      lookupKey_setEntry_ne s.languageData "en" l ews hne]
  · intro l hl ws hfl
    simp only [loadWordData]
    exact lookupKey_loadSecondary_of_some fs l ws hfl secondaryLanguages _ hl

/-- Witness for the amended claim C2: en succeeds with one word, fr
fails, every other secondary succeeds; then en and de are written and fr
keeps its prior (absent) entry. -/
theorem loadWordData_per_language_witness :
    lookupKey "en" (loadWordData (some ["apple"])
      (fun l => if l = "fr" then none else some ["w"])
      initialState).languageData = some ["apple"] ∧
    lookupKey "fr" (loadWordData (some ["apple"])
      (fun l => if l = "fr" then none else some ["w"])
      initialState).languageData = none ∧
    lookupKey "de" (loadWordData (some ["apple"])
      (fun l => if l = "fr" then none else some ["w"])
      initialState).languageData = some ["w"] := by
  have h := loadWordData_per_language ["apple"]
    (fun l => if l = "fr" then none else some ["w"]) initialState
  refine ⟨h.1, ?_, ?_⟩
  · have h2 := h.2.1 "fr" (by decide) (by decide)
    rw [h2]
    decide
  · exact h.2.2.1 "de" (by decide) ["w"] (by decide)

/-- Claim C3: a total primary fetch failure reaches the outer catch
before anything was written, so the store and the available languages
keep their prior content (on the first request: the built-in en
fallback); the requesting handler sets the loaded flag afterwards in
every case, and once the flag is set ensureLoaded is the identity, so no
later data-serving request runs the loader again. -/
theorem primary_failure_fallback (fs fsx : String → Option WordData)
    (fex : Option WordData) :
    (∀ s : AppState, loadWordData none fs s = s) ∧
    (handleLanguages none fs initialState).2.languageData = [("en", fallbackWords)] ∧
    (handleLanguages none fs initialState).2.dataLoaded = true ∧
    (∀ now ip p s, (handleAll none fs now ip p s).2.dataLoaded = true) ∧
    (∀ sh1 sh2 now ip q s, (handleWord none fs sh1 sh2 now ip q s).2.dataLoaded = true) ∧
    (∀ s : AppState, s.dataLoaded = true → ensureLoaded fex fsx s = s) := by
  refine ⟨fun _ => rfl, ?_, ?_, ?_, ?_, ?_⟩
  · rfl
  · rfl
  · intro now ip p s
    exact (handleAll_snd_fields none fs now ip p s).2.2.1
  · intro sh1 sh2 now ip q s
    exact (handleWord_snd_fields none fs sh1 sh2 now ip q s).2.1
  · intro s h
    exact ensureLoaded_of_loaded fex fsx s h

/-- Witness for claim C3 at concrete inputs: after a first /languages
request whose primary fetch failed, the flag is set, and a state with
the flag set is returned unchanged by ensureLoaded. -/
theorem primary_failure_fallback_witness :
    loadWordData none (fun _ => none) initialState = initialState ∧
    ensureLoaded none (fun _ => none) loadedFallbackState = loadedFallbackState := by
  have h := primary_failure_fallback (fun _ => none) (fun _ => none) none
  exact ⟨h.1 initialState, h.2.2.2.2.2 loadedFallbackState rfl⟩

/-! ### Handler response helpers -/

theorem handleAll_fst_reject (fe : Option WordData) (fs : String → Option WordData)
    (now : Nat) (ip : String) (p : Option String) (s : AppState)
    (h : (checkRateLimit now ip (ensureLoaded fe fs s).rateLimits).1 = false) :
    (handleAll fe fs now ip p s).1 = ⟨403, RespBody.err errRateLimitMsg⟩ := by
  simp only [handleAll]
  rw [if_pos h]

theorem handleAll_fst_unknown (fe : Option WordData) (fs : String → Option WordData)
    (now : Nat) (ip : String) (p : Option String) (s : AppState)
    (hadm : (checkRateLimit now ip (ensureLoaded fe fs s).rateLimits).1 = true)
    (hlang : lookupKey (effLang p) (ensureLoaded fe fs s).languageData = none) :
    (handleAll fe fs now ip p s).1 = ⟨403, RespBody.err errNoTranslation⟩ := by
  simp only [handleAll]
  rw [if_neg (by rw [hadm]; simp), hlang]

theorem handleAll_fst_known (fe : Option WordData) (fs : String → Option WordData)
    (now : Nat) (ip : String) (p : Option String) (s : AppState) (ws : WordData)
    (hadm : (checkRateLimit now ip (ensureLoaded fe fs s).rateLimits).1 = true)
    (hlang : lookupKey (effLang p) (ensureLoaded fe fs s).languageData = some ws) :
    (handleAll fe fs now ip p s).1 = ⟨200, RespBody.arr ws⟩ := by
  simp only [handleAll]
  rw [if_neg (by rw [hadm]; simp), hlang]

theorem handleWord_fst_reject (fe : Option WordData) (fs : String → Option WordData)
    (sh1 sh2 : List String → List String) (now : Nat) (ip : String) (q : WordQuery)
    (s : AppState)
    (h : (checkRateLimit now ip (ensureLoaded fe fs s).rateLimits).1 = false) :
    (handleWord fe fs sh1 sh2 now ip q s).1 = ⟨403, RespBody.err errRateLimitMsg⟩ := by
  simp only [handleWord]
  rw [if_pos h]

theorem handleWord_fst_unknown (fe : Option WordData) (fs : String → Option WordData)
    (sh1 sh2 : List String → List String) (now : Nat) (ip : String) (q : WordQuery)
    (s : AppState)
    (hadm : (checkRateLimit now ip (ensureLoaded fe fs s).rateLimits).1 = true)
    (hlang : lookupKey (effLang q.lang) (ensureLoaded fe fs s).languageData = none) :
    (handleWord fe fs sh1 sh2 now ip q s).1 = ⟨403, RespBody.err errNoTranslation⟩ := by
  simp only [handleWord]
  rw [if_neg (by rw [hadm]; simp), hlang]

theorem handleWord_fst_noWords (fe : Option WordData) (fs : String → Option WordData)
    (sh1 sh2 : List String → List String) (now : Nat) (ip : String) (q : WordQuery)
    (s : AppState) (stored : WordData)
    (hadm : (checkRateLimit now ip (ensureLoaded fe fs s).rateLimits).1 = true)
    (hlang : lookupKey (effLang q.lang) (ensureLoaded fe fs s).languageData = some stored)
    (hlen : 0 < q.length)
    (hemp : (stored.filter (fun w => decide ((w.length : Int) = q.length))).isEmpty = true) :
    (handleWord fe fs sh1 sh2 now ip q s).1 = ⟨403, RespBody.err errNoWordsLength⟩ := by
  simp only [handleWord]
  rw [if_neg (by rw [hadm]; simp), hlang]
  simp only [if_pos hlen, hemp]
  rfl

theorem handleWord_snd_languageData (fe : Option WordData) (fs : String → Option WordData)
    (sh1 sh2 : List String → List String) (now : Nat) (ip : String) (q : WordQuery)
    (s : AppState) :
    (handleWord fe fs sh1 sh2 now ip q s).2.languageData =
      (ensureLoaded fe fs s).languageData ∨
    (¬(0 < q.length) ∧ ∃ stored,
      lookupKey (effLang q.lang) (ensureLoaded fe fs s).languageData = some stored ∧
      (handleWord fe fs sh1 sh2 now ip q s).2.languageData =
        setEntry (ensureLoaded fe fs s).languageData (effLang q.lang) (sh1 stored)) := by
  simp only [handleWord]
  split
  · exact Or.inl rfl
  · split
    · exact Or.inl rfl
    · next stored heq =>
      split
      · next hlen =>
        split
        · exact Or.inl rfl
        · exact Or.inl rfl
      · next hlen =>
        exact Or.inr ⟨hlen, stored, heq, rfl⟩

/-! ### Claim C9: the en entry is never lost -/

theorem enPresent_reachable (s : AppState) (h : Reachable s) : EnPresent s := by
  induction h with
  | init => exact ⟨by decide, by decide⟩
  | @stepLanguages s2 fe fs _ ih =>
    rw [handleLanguages_eq]
    exact enPresent_ensureLoaded fe fs s2 ih
  | @stepAll s2 fe fs now ip p _ ih =>
    have hf := handleAll_snd_fields fe fs now ip p s2
    have he := enPresent_ensureLoaded fe fs s2 ih
    exact ⟨by rw [hf.1]; exact he.1, by rw [hf.2.1]; exact he.2⟩
  | @stepWord s2 fe fs sh1 sh2 now ip q _ ih =>
    have hf := handleWord_snd_fields fe fs sh1 sh2 now ip q s2
    have he := enPresent_ensureLoaded fe fs s2 ih
    refine ⟨?_, by rw [hf.1]; exact he.2⟩
    rcases hf.2.2.2 with heq | ⟨lang, ws, heq⟩
    · rw [heq]; exact he.1
    · rw [heq]; exact isSome_lookupKey_setEntry _ lang "en" ws he.1

/-- Claim C9: at every reachable state the store has an entry for en
(present initially as the fallback, only ever overwritten, never
removed), en is in the available languages list, and therefore every
/languages response is a 200 array that contains en. -/
theorem en_always_present (s : AppState) (h : Reachable s) :
    (lookupKey "en" s.languageData).isSome = true ∧
    "en" ∈ s.availableLanguages ∧
    (∀ fe fs, (handleLanguages fe fs s).1 =
        ⟨200, RespBody.arr (ensureLoaded fe fs s).availableLanguages⟩ ∧
      "en" ∈ (ensureLoaded fe fs s).availableLanguages) := by
  have he := enPresent_reachable s h
  refine ⟨he.1, he.2, ?_⟩
  intro fe fs
  exact ⟨by rw [handleLanguages_eq], (enPresent_ensureLoaded fe fs s he).2⟩

/-- Witness for claim C9: the initial state is reachable, keeps the en
entry, and a /languages request with a failing primary fetch still
answers with a list containing en. -/
theorem en_always_present_witness :
    (lookupKey "en" initialState.languageData).isSome = true ∧
    "en" ∈ initialState.availableLanguages ∧
    "en" ∈ (ensureLoaded none (fun _ => none) initialState).availableLanguages := by
  have h := en_always_present initialState Reachable.init
  exact ⟨h.1, h.2.1, (h.2.2 none (fun _ => none)).2⟩

/-! ### Claim C1: the word store after a /word request -/

/-- Counterexample to claim C1 as stated: a /word request without a
length filter reaches 200 but sorts the stored array in place, so the en
word list afterwards holds its words in a different order than before
(here the random comparator sort is instantiated with the reversal,
one of the reorderings it can produce). -/
theorem word_mutates_store_cex :
    lookupKey "en" loadedFallbackState.languageData = some fallbackWords ∧
    ((handleWord none (fun _ => none) List.reverse List.reverse 1000 "a"
        ⟨1, -1, some "en", -1⟩ loadedFallbackState).1.status = 200) ∧
    ¬(lookupKey "en" (handleWord none (fun _ => none) List.reverse List.reverse 1000 "a"
        ⟨1, -1, some "en", -1⟩ loadedFallbackState).2.languageData =
      some fallbackWords) := by decide

/-- Claim C1 (amended): a /word request never changes which words a
stored list holds, but not their order: when a length filter is applied
the store is completely unchanged (the filter makes a fresh array, so
the sort no longer aliases the store); without a length filter the
requested language entry is replaced by the in-place sorted reordering
of itself, a permutation; entries of other languages are never touched. -/
theorem handleWord_store_effect (fe : Option WordData) (fs : String → Option WordData)
    (sh1 sh2 : List String → List String) (now : Nat) (ip : String) (q : WordQuery)
    (s : AppState) (hsh1 : ∀ l, (sh1 l).Perm l) :
    (0 < q.length →
      (handleWord fe fs sh1 sh2 now ip q s).2.languageData =
        (ensureLoaded fe fs s).languageData) ∧
    (∀ k ws, lookupKey k (handleWord fe fs sh1 sh2 now ip q s).2.languageData = some ws →
      ∃ ws0, lookupKey k (ensureLoaded fe fs s).languageData = some ws0 ∧ ws.Perm ws0) ∧
    (∀ k, k ≠ effLang q.lang →
      lookupKey k (handleWord fe fs sh1 sh2 now ip q s).2.languageData =
        lookupKey k (ensureLoaded fe fs s).languageData) := by
  rcases handleWord_snd_languageData fe fs sh1 sh2 now ip q s with heq | ⟨hlen, stored, hst, heq⟩
  · refine ⟨fun _ => heq, ?_, ?_⟩
    · intro k ws hws
      rw [heq] at hws
      exact ⟨ws, hws, List.Perm.refl ws⟩
    · intro k _
      rw [heq]
  · refine ⟨fun hl => absurd hl hlen, ?_, ?_⟩
    · intro k ws hws
      rw [heq] at hws
      by_cases hk : k = effLang q.lang
      · subst hk
        rw [lookupKey_setEntry_self] at hws
        injection hws with hws
        exact ⟨stored, hst, hws ▸ hsh1 stored⟩
      · rw [lookupKey_setEntry_ne _ _ _ _ hk] at hws
        exact ⟨ws, hws, List.Perm.refl ws⟩
    · intro k hk
      rw [heq, lookupKey_setEntry_ne _ _ _ _ hk]

/-- Witness for the amended claim C1 at a concrete input: a /word
request without a length filter on the loaded fallback state, with the
reversal as the sort outcome. -/
theorem handleWord_store_effect_witness :
    ∃ ws0, lookupKey "en" (ensureLoaded none (fun _ => none) loadedFallbackState).languageData
        = some ws0 ∧
      (["demo", "example", "test", "world", "hello"] : List String).Perm ws0 := by
  have h := handleWord_store_effect none (fun _ => none) List.reverse List.reverse
    1000 "a" ⟨1, -1, some "en", -1⟩ loadedFallbackState (fun l => List.reverse_perm l)
  exact h.2.1 "en" ["demo", "example", "test", "world", "hello"] (by decide)

/-! ### Claims C8 and C10 on the request surface -/

/-- Counterexample to claim C8 as stated: the empty string is not a key
of the word store, yet a non-rate-limited /all request with lang set to
the empty string answers 200 with the en words, because the JavaScript
default lang OR en treats the empty string as absent. -/
theorem empty_lang_cex :
    lookupKey "" loadedFallbackState.languageData = none ∧
    (handleAll none (fun _ => none) 1000 "a" (some "") loadedFallbackState).1 =
      ⟨200, RespBody.arr fallbackWords⟩ := by decide

/-- Claim C8 (amended): for every non-rate-limited /all or /word request
whose lang parameter, after the default (absent or empty becomes en), is
not a key of the word store, the response is 403 with the unknown
language error, regardless of every other parameter. -/
theorem unknown_language_403 (fe : Option WordData) (fs : String → Option WordData)
    (sh1 sh2 : List String → List String) (now : Nat) (ip : String)
    (p : Option String) (q : WordQuery) (s : AppState)
    (hadm : (checkRateLimit now ip (ensureLoaded fe fs s).rateLimits).1 = true)
    (hlangA : lookupKey (effLang p) (ensureLoaded fe fs s).languageData = none)
    (hlangW : lookupKey (effLang q.lang) (ensureLoaded fe fs s).languageData = none) :
    (handleAll fe fs now ip p s).1 = ⟨403, RespBody.err errNoTranslation⟩ ∧
    (handleWord fe fs sh1 sh2 now ip q s).1 = ⟨403, RespBody.err errNoTranslation⟩ :=
  ⟨handleAll_fst_unknown fe fs now ip p s hadm hlangA,
    handleWord_fst_unknown fe fs sh1 sh2 now ip q s hadm hlangW⟩

/-- Witness for the amended claim C8: requests for the unknown language
xx answer the unknown language error on both routes. -/
theorem unknown_language_403_witness :
    (handleAll none (fun _ => none) 1000 "a" (some "xx") initialState).1 =
      ⟨403, RespBody.err errNoTranslation⟩ ∧
    (handleWord none (fun _ => none) id id 1000 "a" ⟨1, -1, some "xx", -1⟩
      initialState).1 = ⟨403, RespBody.err errNoTranslation⟩ := by
  exact unknown_language_403 none (fun _ => none) id id 1000 "a" (some "xx")
    ⟨1, -1, some "xx", -1⟩ initialState (by decide) (by decide) (by decide)

/-- Claim C10: on /all and /word the rate limit check runs before the
language validation and records the client timestamp on admit, so a
request that ends in the 403 unknown language error (on either route)
or in the 403 /word no-words-of-length error still updates the table,
and the same client within the window is then rejected on either route,
after any of these failed requests, whatever the parameters of the
second request. -/
theorem rate_limit_before_validation (fe fe2 : Option WordData)
    (fs fs2 : String → Option WordData)
    (sh1 sh2 sh3 sh4 sh5 sh6 : List String → List String)
    (now now2 : Nat) (ip : String) (p p2 : Option String) (q qu q2 : WordQuery)
    (s : AppState) (stored : WordData) (hnow : 0 < now)
    (hadm : (checkRateLimit now ip (ensureLoaded fe fs s).rateLimits).1 = true)
    (hwin : now2 - now ≤ RATE_LIMIT_WINDOW)
    (hlangA : lookupKey (effLang p) (ensureLoaded fe fs s).languageData = none)
    (hlangWu : lookupKey (effLang qu.lang) (ensureLoaded fe fs s).languageData = none)
    (hlangW : lookupKey (effLang q.lang) (ensureLoaded fe fs s).languageData = some stored)
    (hlen : 0 < q.length)
    (hemp : (stored.filter (fun w => decide ((w.length : Int) = q.length))).isEmpty = true) :
    (handleAll fe fs now ip p s).1 = ⟨403, RespBody.err errNoTranslation⟩ ∧
    lookupKey ip (handleAll fe fs now ip p s).2.rateLimits = some now ∧
    (handleWord fe fs sh1 sh2 now ip qu s).1 = ⟨403, RespBody.err errNoTranslation⟩ ∧
    lookupKey ip (handleWord fe fs sh1 sh2 now ip qu s).2.rateLimits = some now ∧
    (handleWord fe fs sh3 sh4 now ip q s).1 = ⟨403, RespBody.err errNoWordsLength⟩ ∧
    lookupKey ip (handleWord fe fs sh3 sh4 now ip q s).2.rateLimits = some now ∧
    (handleAll fe2 fs2 now2 ip p2 (handleAll fe fs now ip p s).2).1 =
      ⟨403, RespBody.err errRateLimitMsg⟩ ∧
    (handleWord fe2 fs2 sh5 sh6 now2 ip q2 (handleAll fe fs now ip p s).2).1 =
      ⟨403, RespBody.err errRateLimitMsg⟩ ∧
    (handleAll fe2 fs2 now2 ip p2 (handleWord fe fs sh1 sh2 now ip qu s).2).1 =
      ⟨403, RespBody.err errRateLimitMsg⟩ ∧
    (handleWord fe2 fs2 sh5 sh6 now2 ip q2 (handleWord fe fs sh1 sh2 now ip qu s).2).1 =
      ⟨403, RespBody.err errRateLimitMsg⟩ ∧
    (handleAll fe2 fs2 now2 ip p2 (handleWord fe fs sh3 sh4 now ip q s).2).1 =
      ⟨403, RespBody.err errRateLimitMsg⟩ ∧
    (handleWord fe2 fs2 sh5 sh6 now2 ip q2 (handleWord fe fs sh3 sh4 now ip q s).2).1 =
      ⟨403, RespBody.err errRateLimitMsg⟩ := by
  have heff := checkRateLimit_admit_effects now ip (ensureLoaded fe fs s).rateLimits hadm
  have hfA := handleAll_snd_fields fe fs now ip p s
  have hfWu := handleWord_snd_fields fe fs sh1 sh2 now ip qu s
  have hfW := handleWord_snd_fields fe fs sh3 sh4 now ip q s
  have hlkA : lookupKey ip (handleAll fe fs now ip p s).2.rateLimits = some now := by
    rw [hfA.2.2.2]
    exact heff.1
  have hlkWu : lookupKey ip (handleWord fe fs sh1 sh2 now ip qu s).2.rateLimits
      = some now := by
    rw [hfWu.2.2.1]
    exact heff.1
  have hlkW : lookupKey ip (handleWord fe fs sh3 sh4 now ip q s).2.rateLimits
      = some now := by
    rw [hfW.2.2.1]
    exact heff.1
  have hrej : ∀ st : AppState, st.dataLoaded = true →
      lookupKey ip st.rateLimits = some now →
      (checkRateLimit now2 ip (ensureLoaded fe2 fs2 st).rateLimits).1 = false := by
    intro st hld hlk
    rw [ensureLoaded_of_loaded fe2 fs2 st hld]
    exact checkRateLimit_reject_of_recent now2 now ip st.rateLimits hlk hnow hwin
  exact ⟨handleAll_fst_unknown fe fs now ip p s hadm hlangA, hlkA,
    handleWord_fst_unknown fe fs sh1 sh2 now ip qu s hadm hlangWu, hlkWu,
    handleWord_fst_noWords fe fs sh3 sh4 now ip q s stored hadm hlangW hlen hemp, hlkW,
    handleAll_fst_reject fe2 fs2 now2 ip p2 _ (hrej _ hfA.2.2.1 hlkA),
    handleWord_fst_reject fe2 fs2 sh5 sh6 now2 ip q2 _ (hrej _ hfA.2.2.1 hlkA),
    handleAll_fst_reject fe2 fs2 now2 ip p2 _ (hrej _ hfWu.2.1 hlkWu),
    handleWord_fst_reject fe2 fs2 sh5 sh6 now2 ip q2 _ (hrej _ hfWu.2.1 hlkWu),
    handleAll_fst_reject fe2 fs2 now2 ip p2 _ (hrej _ hfW.2.1 hlkW),
    handleWord_fst_reject fe2 fs2 sh5 sh6 now2 ip q2 _ (hrej _ hfW.2.1 hlkW)⟩

/-- Witness for claim C10 at concrete inputs: a first /word request for
words of length 3 in en on the fallback data (no such word exists) at
time 1000 answers the no-words-of-length error and still records client
a; the same client at time 2000 is rejected on both routes, here asking
for the perfectly valid language en; the same holds after a first /all
request for the unknown language xx. -/
theorem rate_limit_before_validation_witness :
    (handleWord none (fun _ => none) id id 1000 "a" ⟨1, 3, some "en", -1⟩
      initialState).1 = ⟨403, RespBody.err errNoWordsLength⟩ ∧
    lookupKey "a" (handleWord none (fun _ => none) id id 1000 "a"
      ⟨1, 3, some "en", -1⟩ initialState).2.rateLimits = some 1000 ∧
    (handleAll none (fun _ => none) 2000 "a" (some "en")
      (handleWord none (fun _ => none) id id 1000 "a" ⟨1, 3, some "en", -1⟩
        initialState).2).1 = ⟨403, RespBody.err errRateLimitMsg⟩ ∧
    (handleWord none (fun _ => none) id id 2000 "a" ⟨1, -1, some "en", -1⟩
      (handleWord none (fun _ => none) id id 1000 "a" ⟨1, 3, some "en", -1⟩
        initialState).2).1 = ⟨403, RespBody.err errRateLimitMsg⟩ ∧
    (handleAll none (fun _ => none) 1000 "a" (some "xx") initialState).1 =
      ⟨403, RespBody.err errNoTranslation⟩ ∧
    (handleAll none (fun _ => none) 2000 "a" (some "en")
      (handleAll none (fun _ => none) 1000 "a" (some "xx") initialState).2).1 =
      ⟨403, RespBody.err errRateLimitMsg⟩ := by
  have h := rate_limit_before_validation none none (fun _ => none) (fun _ => none)
    id id id id id id 1000 2000 "a" (some "xx") (some "en") ⟨1, 3, some "en", -1⟩
    ⟨1, -1, some "xx", -1⟩ ⟨1, -1, some "en", -1⟩ initialState fallbackWords
    (by decide) (by decide) (by decide) (by decide) (by decide) (by decide)
    (by decide) (by decide)
  exact ⟨h.2.2.2.2.1, h.2.2.2.2.2.1, h.2.2.2.2.2.2.2.2.2.2.1,
    h.2.2.2.2.2.2.2.2.2.2.2, h.1, h.2.2.2.2.2.2.1⟩

/-! ### Claims C6 and C7 on the /word selection -/

/-- Claim C6: for every /word request (number already parsed as an
integer), the effective count is the clamp of number into the range 1 to
100 (below 1 becomes 1, above 100 becomes 100, in range unchanged), and
a 200 response carries at most that many words. -/
theorem handleWord_count_clamped (fe : Option WordData) (fs : String → Option WordData)
    (sh1 sh2 : List String → List String) (now : Nat) (ip : String) (q : WordQuery)
    (s : AppState) (ws : List String)
    (h : (handleWord fe fs sh1 sh2 now ip q s).1 = ⟨200, RespBody.arr ws⟩) :
    ws.length ≤ (effectiveCount q.number).toNat ∧
    1 ≤ effectiveCount q.number ∧ effectiveCount q.number ≤ 100 ∧
    (q.number < 1 → effectiveCount q.number = 1) ∧
    (100 < q.number → effectiveCount q.number = 100) ∧
    (1 ≤ q.number → q.number ≤ 100 → effectiveCount q.number = q.number) := by
  have hcl : 1 ≤ effectiveCount q.number ∧ effectiveCount q.number ≤ 100 ∧
      (q.number < 1 → effectiveCount q.number = 1) ∧
      (100 < q.number → effectiveCount q.number = 100) ∧
      (1 ≤ q.number → q.number ≤ 100 → effectiveCount q.number = q.number) := by
    unfold effectiveCount
    rw [max_def, min_def]
    split_ifs <;>
      exact ⟨by omega, by omega, fun h1 => by omega, fun h1 => by omega,
        fun h1 h2 => by omega⟩
  refine ⟨?_, hcl⟩
  simp only [handleWord] at h
  split at h
  · simp at h
  · split at h
    · simp at h
    · split at h
      · split at h
        · simp at h
        · simp only [Resp.mk.injEq, RespBody.arr.injEq, true_and] at h
          rw [← h]
          exact List.length_take_le _ _
      · simp only [Resp.mk.injEq, RespBody.arr.injEq, true_and] at h
        rw [← h]
        exact List.length_take_le _ _

/-- Witness for claim C6 at a concrete input: number 250 is clamped to
100 and the 200 response on the fallback store has at most 100 words. -/
theorem handleWord_count_clamped_witness :
    fallbackWords.length ≤ (effectiveCount 250).toNat ∧
    1 ≤ effectiveCount 250 ∧ effectiveCount 250 ≤ 100 ∧
    ((250 : Int) < 1 → effectiveCount 250 = 1) ∧
    (100 < (250 : Int) → effectiveCount 250 = 100) ∧
    (1 ≤ (250 : Int) → (250 : Int) ≤ 100 → effectiveCount 250 = 250) := by
  exact handleWord_count_clamped none (fun _ => none) id id 1000 "a"
    ⟨250, -1, some "en", -1⟩ loadedFallbackState fallbackWords (by decide)

/-- Claim C7: for a /word request with length at least 1 on a known
language, every word of a 200 response has character count exactly that
length, and when no stored word of the language has that length the
response is the 403 no-words-of-length error, whose message differs from
the unknown language message. -/
theorem handleWord_length_filter (fe : Option WordData) (fs : String → Option WordData)
    (sh1 sh2 : List String → List String) (now : Nat) (ip : String) (q : WordQuery)
    (s : AppState) (ws0 : WordData)
    (hsh1 : ∀ l, (sh1 l).Perm l) (hsh2 : ∀ l, (sh2 l).Perm l)
    (hL : 1 ≤ q.length)
    (hlang : lookupKey (effLang q.lang) (ensureLoaded fe fs s).languageData = some ws0) :
    (∀ ws, (handleWord fe fs sh1 sh2 now ip q s).1 = ⟨200, RespBody.arr ws⟩ →
      ∀ w ∈ ws, (w.length : Int) = q.length) ∧
    ((∀ w ∈ ws0, ¬((w.length : Int) = q.length)) →
      (checkRateLimit now ip (ensureLoaded fe fs s).rateLimits).1 = true →
      (handleWord fe fs sh1 sh2 now ip q s).1 = ⟨403, RespBody.err errNoWordsLength⟩) ∧
    ¬(errNoWordsLength = errNoTranslation) := by
  refine ⟨?_, ?_, by decide⟩
  · intro ws h w hw
    simp only [handleWord] at h
    split at h
    · simp at h
    · split at h
      · next heq =>
        rw [hlang] at heq
        cases heq
      · next stored heq =>
        rw [hlang] at heq
        injection heq with heq
        subst heq
        split at h
        · split at h
          · simp at h
          · simp only [Resp.mk.injEq, RespBody.arr.injEq, true_and] at h
            rw [← h] at hw
            have hw2 := List.mem_of_mem_take hw
            have hw3 : w ∈ sh1 (ws0.filter
                (fun w => decide ((w.length : Int) = q.length))) := by
              rcases hd : diffApplies q.diff (effectiveCount q.number) with _ | _
              · rw [hd] at hw2
                simpa using hw2
              · rw [hd] at hw2
                have := ((hsh2 _).mem_iff).mp (by simpa using hw2)
                exact List.mem_of_mem_take this
            have hw4 := ((hsh1 _).mem_iff).mp hw3
            have := (List.mem_filter.mp hw4).2
            simpa using this
        · next hlen =>
          exact absurd (by omega : (0 : Int) < q.length) hlen
  · intro hno hadm
    apply handleWord_fst_noWords fe fs sh1 sh2 now ip q s ws0 hadm hlang (by omega)
    have hfil : ws0.filter (fun w => decide ((w.length : Int) = q.length)) = [] := by
      rw [List.filter_eq_nil_iff]
      intro a ha
      simpa using hno a ha
    rw [hfil]
    rfl

/-- Witness for claim C7 at the fixed input of the spec: number 3,
length 5, lang en on the fallback data. -/
theorem handleWord_length_filter_witness :
    (("hello" : String).length : Int) = 5 ∧ ¬(errNoWordsLength = errNoTranslation) := by
  have h := handleWord_length_filter none (fun _ => none) id id 1000 "a"
    ⟨3, 5, some "en", -1⟩ loadedFallbackState fallbackWords
    (fun l => List.Perm.refl l) (fun l => List.Perm.refl l) (by decide) (by decide)
  exact ⟨h.1 ["hello", "world"] (by decide) "hello" (by decide), h.2.2⟩

end RandomWordApi
